import Mathlib

/-!
Verification of the `phonenumber` library (file `phonenumber.go`).

The Go source normalizes a free-form phone number into a digit string
(country code + national number) and classifies it as valid/invalid and
mobile/landline against a per-country ruleset.

Shallow embedding conventions:
* Go strings are embedded as Lean `String`; `len` is embedded as the
  character count, which coincides with Go's byte length on ASCII data
  (country codes, identifiers and phone digits are all ASCII).
* The country table `GetISO3166()` is defined in a file of the repository
  that is not part of the analysed sources; every function that reads it
  takes the table as an explicit parameter `tbl : List ISO3166`
  (modelled from the spec: the table is an external, immutable list of
  `ISO3166` records, the first entry being the default country).
* The fixed regular expressions of the source are embedded as the string
  functions they denote: `\D`-removal is a digit filter, `^0+` / `^8+`
  replacement is `dropWhile`, `^89` matching is a literal-prefix test.
* `getRegexpByCountryCode(p)` compiles the pattern `^` ++ p and the cache
  is observationally transparent, so its matcher is embedded as an
  anchored match of the pattern `p`.  The interpreter `dotLitMatch`
  is faithful for every pattern built from regex-literal characters
  (in particular digit strings, the only keys the library itself uses)
  and the metacharacter `.` (any single character).
-/

/-- Character class of Go's regexp `\d` (the source uses `\D`, its
complement): the ASCII digits `0`-`9`. -/
def isGoDigit (c : Char) : Bool :=
  '0' ≤ c && c ≤ '9'

/-- A string made only of ASCII digits. -/
def isDigitStr (s : String) : Bool :=
  s.data.all isGoDigit

/-- Embeds `strings.Replace(s, " ", "", -1)`: removes every space. -/
def stripSpaces (s : String) : String :=
  ⟨s.data.filter (fun c => !(c == ' '))⟩

/-- Embeds `digitsOnlyRegexp.ReplaceAllString(s, "")` where the pattern is
`\D`: keeps exactly the digit characters. -/
def digitsOnly (s : String) : String :=
  ⟨s.data.filter isGoDigit⟩

/-- Embeds `strings.HasPrefix(s, pre)`. -/
def strStartsWith (s pre : String) : Bool :=
  pre.data.isPrefixOf s.data

/-- Drop the first `n` characters of a string. -/
def strDrop (s : String) (n : Nat) : String :=
  ⟨s.data.drop n⟩

/-- Embeds Go's `len` on the ASCII strings handled by the library. -/
def strLen (s : String) : Nat :=
  s.data.length

/-- ASCII fragment of Go's `strings.ToUpper` on a single character. -/
def goUpperChar (c : Char) : Char :=
  if 'a' ≤ c && c ≤ 'z' then Char.ofNat (c.toNat - 32) else c

/-- ASCII fragment of Go's `strings.ToUpper` (all data compared by the
source is ASCII). -/
def strToUpper (s : String) : String :=
  ⟨s.data.map goUpperChar⟩

/-- Embeds `strings.Replace(s, pat, "", 1)` on character lists: removes the
leftmost occurrence of `pat`; with an empty pattern Go inserts the (empty)
replacement and returns the string unchanged. -/
def removeFirst : List Char → List Char → List Char
  | s, [] => s
  | [], _ => []
  | c :: cs, pat =>
    if pat.isPrefixOf (c :: cs) then (c :: cs).drop pat.length
    else c :: removeFirst cs pat

/-- String version of `removeFirst`. -/
def removeFirstStr (s pat : String) : String :=
  ⟨removeFirst s.data pat.data⟩

/-- Anchored matcher for the fragment of Go regexp syntax in which every
pattern character is either a literal or the metacharacter `.` (any single
character).  `dotLitMatch pat s` holds exactly when some instantiation of
`pat` is a prefix of `s`, which is the semantics of `regexp.MatchString`
for the pattern `^` ++ pat over this fragment. -/
def dotLitMatch : List Char → List Char → Bool
  | [], _ => true
  | _ :: _, [] => false
  | p :: ps, c :: cs => (p == '.' || p == c) && dotLitMatch ps cs

/-- Embeds `getRegexpByCountryCode(p).MatchString(s)`: the source compiles
the pattern `^` ++ p (memoised in a cache that is observationally
transparent), anchored matching at the start of `s`. -/
def matchCC (p s : String) : Bool :=
  dotLitMatch p.data s.data

/-- Embeds `getRegexpByCountryCode(p).ReplaceAllString(s, "")`: the pattern
`^` ++ p matches at most once (it is anchored), so the replacement removes
the matched prefix when there is one and is the identity otherwise. -/
def stripCC (p s : String) : String :=
  if matchCC p s then strDrop s (strLen p) else s

/-- Embeds `leadZeroRegexp.ReplaceAllString(s, "")` for the pattern `^0+`:
removes the maximal run of leading zeros. -/
def stripLeadingZeros (s : String) : String :=
  ⟨s.data.dropWhile (fun c => c == '0')⟩

/-- Embeds `rusLocalePrefixRegexp.ReplaceAllString(s, "")` for the pattern
`^8+`: removes the maximal run of leading `8`s. -/
def stripLeading8s (s : String) : String :=
  ⟨s.data.dropWhile (fun c => c == '8')⟩

/-- Modelled from the spec: the per-country ruleset record.  The Go struct
is declared with the table outside the analysed sources; the fields and
their meaning are exactly those the source reads (`Alpha2`, `Alpha3`,
`CountryName`, `MobileBeginWith`, `PhoneNumberLengths`, `CountryCode`). -/
structure ISO3166 where
  Alpha2 : String
  Alpha3 : String
  CountryName : String
  MobileBeginWith : List String
  PhoneNumberLengths : List Nat
  CountryCode : String
deriving DecidableEq

/-- The zero-value record `ISO3166{}` of Go. -/
def ISO3166.zero : ISO3166 :=
  ⟨"", "", "", [], [], ""⟩

/-- Embeds the search loops of `getISO3166ByCountry`: the accumulator
starts at the zero record and the first match breaks out of the loop. -/
def findISO (p : ISO3166 → Bool) : List ISO3166 → ISO3166
  | [] => ISO3166.zero
  | i :: rest => if p i then i else findISO p rest

/-- Embeds `indexOfString`. -/
def indexOfString (word : String) : List String → Int
  | [] => -1
  | v :: vs =>
    if word = v then 0
    else
      let r := indexOfString word vs
      if r = -1 then -1 else r + 1

/-- Embeds `indexOfInt`. -/
def indexOfInt (word : Nat) : List Nat → Int
  | [] => -1
  | v :: vs =>
    if word = v then 0
    else
      let r := indexOfInt word vs
      if r = -1 then -1 else r + 1

/-- Embeds `getISO3166ByCountry` (lines 128-157).  The Go `switch` is on
`len(country)` of the raw argument; `GetISO3166()[0]` is the head of the
non-empty external table, embedded totally as `headD` with the zero record
as the (unreachable on the real table) default. -/
def getISO3166ByCountry (tbl : List ISO3166) (country : String) : ISO3166 :=
  let upper := strToUpper country
  match strLen country with
  | 0 => tbl.headD ISO3166.zero
  | 2 => findISO (fun i => i.Alpha2 == upper) tbl
  | 3 => findISO (fun i => i.Alpha3 == upper) tbl
  | _ => findISO (fun i => strToUpper i.CountryName == upper) tbl

/-- Embeds lines 106-112 of `parseInternal`: if the number starts with the
country code, drop that prefix once, then drop a single leading zero of
the remainder, and reattach the country code. -/
def stepTrunkZero (countryCode number : String) : String :=
  if strStartsWith number countryCode then
    let withoutCountryCode := removeFirstStr number countryCode
    let withoutCountryCode :=
      if strStartsWith withoutCountryCode "0" then removeFirstStr withoutCountryCode "0"
      else withoutCountryCode
    countryCode ++ withoutCountryCode
  else number

/-- Embeds lines 114-116 of `parseInternal`: strip all leading zeros unless
the country is one of the leading-zero exceptions. -/
def stepLeadZeros (alpha3 number : String) : String :=
  if indexOfString alpha3 ["GAB", "CIV", "COG"] = -1 then stripLeadingZeros number
  else number

/-- Embeds lines 118-120 of `parseInternal`: the Russian-locale rule.  The
regexp `^89` is a literal-prefix test. -/
def stepRus (alpha3 number : String) : String :=
  if alpha3 == "RUS" && strLen number == 11 && strStartsWith number "89" then
    stripLeading8s number
  else number

/-- Embeds lines 121-123 of `parseInternal`: prepend the country code when
the digit count is one of the accepted national lengths. -/
def stepAttach (iso3166 : ISO3166) (number : String) : String :=
  if indexOfInt (strLen number) iso3166.PhoneNumberLengths ≠ -1 then
    iso3166.CountryCode ++ number
  else number

/-- Embeds `parseInternal` (lines 90-126). -/
def parseInternal (tbl : List ISO3166) (number country : String) : String × ISO3166 :=
  let number := stripSpaces number
  let country := stripSpaces country
  if strStartsWith number "+" && country == "" then ("", ISO3166.zero)
  else
    let number := digitsOnly number
    let iso3166 := getISO3166ByCountry tbl country
    let number := stepTrunkZero iso3166.CountryCode number
    let number := stepLeadZeros iso3166.Alpha3 number
    let number := stepRus iso3166.Alpha3 number
    let number := stepAttach iso3166 number
    (number, iso3166)

/-- Embeds `validateMobileISO3166` (lines 159-177). -/
def validateMobileISO3166 (number : String) (iso3166 : ISO3166) : Bool :=
  if iso3166.PhoneNumberLengths.length = 0 then false
  else
    let number := stripCC iso3166.CountryCode number
    iso3166.PhoneNumberLengths.any fun l =>
      l == strLen number &&
        iso3166.MobileBeginWith.any fun w => matchCC w number

/-- Embeds `validateLandlineISO3166` (lines 179-191). -/
def validateLandlineISO3166 (number : String) (iso3166 : ISO3166) : Bool :=
  if iso3166.PhoneNumberLengths.length = 0 then false
  else
    iso3166.PhoneNumberLengths.any fun l =>
      matchCC iso3166.CountryCode number &&
        strLen number == strLen iso3166.CountryCode + l

/-- Embeds `validatePhoneISO3166` (lines 193-209). -/
def validatePhoneISO3166 (number : String) (iso3166 : ISO3166) : Bool × Bool :=
  if !(validateLandlineISO3166 number iso3166) then (false, false)
  else (true, validateMobileISO3166 number iso3166)

/-- Embeds `Parse` (lines 17-23). -/
def Parse (tbl : List ISO3166) (number country : String) : String :=
  let p := parseInternal tbl number country
  if validateMobileISO3166 p.1 p.2 then p.1 else ""

/-- Embeds `ParseWithLandLine` (lines 26-32). -/
def ParseWithLandLine (tbl : List ISO3166) (number country : String) : String :=
  let p := parseInternal tbl number country
  if validateLandlineISO3166 p.1 p.2 then p.1 else ""

/-- Embeds `ParseWithFlags` (lines 36-44). -/
def ParseWithFlags (tbl : List ISO3166) (number country : String) : String × Bool × Bool :=
  let p := parseInternal tbl number country
  let v := validatePhoneISO3166 p.1 p.2
  ((if v.1 then p.1 else ""), v.1, v.2)

/-- Outcome of the inner length loop of `GetISO3166ByNumber` for one
country: `ret r` models `return r`, `cand` models recording the country as
the landline candidate and breaking, `next` models falling through to the
next country. -/
inductive ScanOutcome where
  | ret (rec : ISO3166)
  | cand
  | next
deriving DecidableEq

/-- Embeds the inner `MobileBeginWith` loop of `GetISO3166ByNumber`
(lines 54-60): does any matcher for `CountryCode + w` match the number? -/
def mobileLoopHit (i : ISO3166) (number : String) : Bool :=
  i.MobileBeginWith.any fun w => matchCC (i.CountryCode ++ w) number

/-- Embeds the `PhoneNumberLengths` loop of `GetISO3166ByNumber`
(lines 51-68) for one country. -/
def lengthsLoop (i : ISO3166) (number : String) (withLandLine : Bool) :
    List Nat → ScanOutcome
  | [] => .next
  | l :: ls =>
    if matchCC i.CountryCode number && strLen number == strLen i.CountryCode + l then
      if mobileLoopHit i number then .ret i
      else if withLandLine then .cand
      else lengthsLoop i number withLandLine ls
    else lengthsLoop i number withLandLine ls

/-- Embeds the outer country loop of `GetISO3166ByNumber` (lines 49-69)
with its landline-candidate accumulator. -/
def tableLoop (number : String) (withLandLine : Bool) :
    List ISO3166 → ISO3166 → ISO3166
  | [], acc => acc
  | i :: rest, acc =>
    match lengthsLoop i number withLandLine i.PhoneNumberLengths with
    | .ret r => r
    | .cand => tableLoop number withLandLine rest i
    | .next => tableLoop number withLandLine rest acc

/-- Embeds `GetISO3166ByNumber` (lines 47-71). -/
def GetISO3166ByNumber (tbl : List ISO3166) (number : String)
    (withLandLine : Bool) : ISO3166 :=
  tableLoop number withLandLine tbl ISO3166.zero

/-! ### Spec-side definitions (written from the claims' words) -/

/-- The claim's "national part": the digits with the country-code prefix
stripped when present. -/
def nationalPart (iso3166 : ISO3166) (number : String) : String :=
  if strStartsWith number iso3166.CountryCode then
    strDrop number (strLen iso3166.CountryCode)
  else number


/-- The claim's description of `getISO3166ByCountry` minus the space
trimming: upper-case for comparison, dispatch on the identifier's length
(empty identifier gives the first record, two characters match `Alpha2`,
three match `Alpha3`, anything else matches the country name
case-insensitively), and return the zero record when nothing matches. -/
def getISO3166ByCountrySpec (tbl : List ISO3166) (country : String) : ISO3166 :=
  let upper := strToUpper country
  if country = "" then tbl.headD ISO3166.zero
  else if strLen country = 2 then (tbl.find? fun i => i.Alpha2 == upper).getD ISO3166.zero
  else if strLen country = 3 then (tbl.find? fun i => i.Alpha3 == upper).getD ISO3166.zero
  else (tbl.find? fun i => strToUpper i.CountryName == upper).getD ISO3166.zero


/-- Space trimming at both ends, as in the claim's words "trimming
spaces". -/
def strTrim (s : String) : String :=
  ⟨((s.data.dropWhile (fun c => c == ' ')).reverse.dropWhile (fun c => c == ' ')).reverse⟩


/-- The behaviour that C4 claims for `getISO3166ByCountry`: trim spaces,
then resolve. -/
def getISO3166ByCountryClaim (tbl : List ISO3166) (country : String) : ISO3166 :=
  getISO3166ByCountrySpec tbl (strTrim country)


/-- Last element of a list of records, with a default: the claim's "last
landline candidate wins". -/
def lastD : List ISO3166 → ISO3166 → ISO3166
  | [], d => d
  | i :: rest, _ => lastD rest i


/-- The claim's landline condition for lookup-by-number: the number starts
with the country code and the total length is the country-code length plus
an accepted national length. -/
def landlineMatch (i : ISO3166) (number : String) : Bool :=
  strStartsWith number i.CountryCode &&
    i.PhoneNumberLengths.any fun l => strLen number == strLen i.CountryCode + l


/-- The claim's mobile condition for lookup-by-number: the number starts
with the country code followed by some mobile prefix. -/
def mobileMatch (i : ISO3166) (number : String) : Bool :=
  i.MobileBeginWith.any fun w => strStartsWith number (i.CountryCode ++ w)


/-- The behaviour C6 claims for `GetISO3166ByNumber`: the first country
matching both the landline and the mobile condition is returned
immediately; otherwise, with `withLandLine`, the LAST country matching the
landline condition; otherwise the zero record. -/
def getISO3166ByNumberSpec (tbl : List ISO3166) (number : String)
    (withLandLine : Bool) : ISO3166 :=
  match tbl.find? fun i => landlineMatch i number && mobileMatch i number with
  | some i => i
  | none =>
    if withLandLine then lastD (tbl.filter fun i => landlineMatch i number) ISO3166.zero
    else ISO3166.zero


/-- The data-model invariant of a table record: the country code and every
mobile prefix are digit strings. -/
@[reducible] def WFrec (i : ISO3166) : Prop :=
  isDigitStr i.CountryCode = true ∧ ∀ w ∈ i.MobileBeginWith, isDigitStr w = true


/-! ### Basic lemmas about the string primitives -/

theorem isPrefixOf_iff_exists (p : List Char) :
    ∀ s : List Char, p.isPrefixOf s = true ↔ ∃ t, s = p ++ t := by
  induction p with
  | nil => intro s; simp [List.isPrefixOf]
  | cons a ps ih =>
    intro s
    cases s with
    | nil => simp [List.isPrefixOf]
    | cons c cs =>
      simp only [List.isPrefixOf_cons₂, Bool.and_eq_true, beq_iff_eq, ih,
        List.cons_append, List.cons.injEq]
      constructor
      · rintro ⟨h1, t, h2⟩; exact ⟨t, h1.symm, h2⟩
      · rintro ⟨t, h1, h2⟩; exact ⟨h1.symm, t, h2⟩

theorem dotLitMatch_eq_isPrefixOf (p : List Char) :
    ∀ s : List Char, p.all isGoDigit = true → dotLitMatch p s = p.isPrefixOf s := by
  induction p with
  | nil => intro s _; simp [dotLitMatch, List.isPrefixOf]
  | cons a ps ih =>
    intro s h
    simp only [List.all_cons, Bool.and_eq_true] at h
    have hdot : (a == '.') = false := by
      cases hb : a == '.' with
      | false => rfl
      | true =>
        have ha := h.1
        rw [show a = '.' from beq_iff_eq.mp hb] at ha
        exact absurd ha (by decide)
    cases s with
    | nil => simp [dotLitMatch, List.isPrefixOf]
    | cons c cs =>
      simp [dotLitMatch, List.isPrefixOf_cons₂, hdot, ih cs h.2]

theorem matchCC_eq_startsWith (p s : String) (hp : isDigitStr p = true) :
    matchCC p s = strStartsWith s p :=
  dotLitMatch_eq_isPrefixOf p.data s.data hp

theorem strStartsWith_iff_exists (s p : String) :
    strStartsWith s p = true ↔ ∃ t, s.data = p.data ++ t :=
  isPrefixOf_iff_exists p.data s.data

/-! ### C9: the pattern-cache matcher contract -/

/-- C9 (counterexample): the claim says that for EVERY prefix string `p`
the matcher of `getRegexpByCountryCode(p)` accepts `s` iff `s` starts with
`p`.  The source compiles `^` ++ p as a regular expression without quoting
`p`, so for `p = "."` the compiled matcher accepts `"5"`, which does not
start with `"."`. -/
theorem matchCC_dot_refutes_contract :
    matchCC "." "5" = true ∧ strStartsWith "5" "." = false := by
  constructor <;> decide

/-- C9 (amended): for every prefix consisting only of digit characters
(the only keys the library itself ever uses: country codes and mobile
prefixes), the matcher produced by the pattern cache accepts exactly the
strings that start with that prefix. -/
theorem matchCC_digit_iff_startsWith (p s : String) (hp : isDigitStr p = true) :
    matchCC p s = true ↔ strStartsWith s p = true := by
  rw [matchCC_eq_startsWith p s hp]

/-- C9 (witness): the amended matcher contract at the concrete prefix
`"44"` and subject `"447911123456"`. -/
theorem matchCC_digit_iff_startsWith_witness :
    isDigitStr "44" = true ∧
      (matchCC "44" "447911123456" = true ↔ strStartsWith "447911123456" "44" = true) :=
  ⟨by decide, matchCC_digit_iff_startsWith "44" "447911123456" (by decide)⟩

/-! ### C2: ParseWithFlags never pairs valid=false with a non-empty result -/

/-- C2: for every table, number string and country identifier,
`ParseWithFlags` returns an empty normalized string whenever the `valid`
flag is false (lines 40-42 of the source clear `parsed`). -/
theorem parseWithFlags_invalid_is_empty (tbl : List ISO3166) (number country : String)
    (h : (ParseWithFlags tbl number country).2.1 = false) :
    (ParseWithFlags tbl number country).1 = "" := by
  rw [show (ParseWithFlags tbl number country).1
      = (if (ParseWithFlags tbl number country).2.1
          then (parseInternal tbl number country).1 else "") from rfl, h]
  simp

/-- C2 (witness): the empty input with the empty table is invalid and
normalizes to the empty string. -/
theorem parseWithFlags_invalid_is_empty_witness :
    (ParseWithFlags [] "" "").1 = "" :=
  parseWithFlags_invalid_is_empty [] "" "" (by decide)

/-! ### C5: international-format input with no declared country fails -/

/-- C5: if the number (after space removal) begins with `+` and the
country identifier (after space removal) is empty, `parseInternal` returns
the empty string and the zero record, and all three public parsers yield
the empty/invalid result. -/
theorem parseInternal_plus_empty_country (tbl : List ISO3166) (number country : String)
    (h1 : strStartsWith (stripSpaces number) "+" = true)
    (h2 : stripSpaces country = "") :
    parseInternal tbl number country = ("", ISO3166.zero) ∧
      Parse tbl number country = "" ∧
      ParseWithLandLine tbl number country = "" ∧
      ParseWithFlags tbl number country = ("", false, false) := by
  have hpi : parseInternal tbl number country = ("", ISO3166.zero) := by
    simp [parseInternal, h1, h2]
  refine ⟨hpi, ?_, ?_, ?_⟩
  · simp [Parse, hpi, validateMobileISO3166, ISO3166.zero]
  · simp [ParseWithLandLine, hpi, validateLandlineISO3166, ISO3166.zero]
  · simp [ParseWithFlags, hpi, validatePhoneISO3166, validateLandlineISO3166, ISO3166.zero]

/-- C5 (witness): `parse("+")` with empty country returns the empty
string. -/
theorem parseInternal_plus_empty_country_witness :
    Parse [] "+" "" = "" :=
  (parseInternal_plus_empty_country [] "+" "" (by decide) (by decide)).2.1

/-! ### C1 / C3: the classifier -/

theorem stripCC_eq_nationalPart (iso3166 : ISO3166) (number : String)
    (hcc : isDigitStr iso3166.CountryCode = true) :
    stripCC iso3166.CountryCode number = nationalPart iso3166 number := by
  simp [stripCC, nationalPart, matchCC_eq_startsWith _ _ hcc]

theorem validateLandline_iff (number : String) (iso3166 : ISO3166)
    (hcc : isDigitStr iso3166.CountryCode = true) :
    validateLandlineISO3166 number iso3166 = true ↔
      (iso3166.PhoneNumberLengths ≠ [] ∧
        strStartsWith number iso3166.CountryCode = true ∧
        ∃ l ∈ iso3166.PhoneNumberLengths,
          strLen number = strLen iso3166.CountryCode + l) := by
  unfold validateLandlineISO3166
  by_cases hemp : iso3166.PhoneNumberLengths.length = 0
  · simp [hemp, List.length_eq_zero.mp hemp]
  · have hne : iso3166.PhoneNumberLengths ≠ [] := by
      intro h; exact hemp (by simp [h])
    simp only [hemp, if_neg, ite_false, List.any_eq_true, Bool.and_eq_true, beq_iff_eq,
      matchCC_eq_startsWith _ _ hcc]
    constructor
    · rintro ⟨l, hl, hsw, hlen⟩
      exact ⟨hne, hsw, l, hl, hlen⟩
    · rintro ⟨-, hsw, l, hl, hlen⟩
      exact ⟨l, hl, hsw, hlen⟩

/-- C1: with a digit-string country code (the data-model invariant of the
table), the combined classification has `valid = true` exactly when the
landline check passes — lengths non-empty, the digits begin with the
country code and the total length is the country-code length plus an
accepted national length; `mobile = true` exactly when additionally the
mobile check passes; and when the landline check fails the result is
`(false, false)` regardless of any mobile-prefix match. -/
theorem validatePhone_combined (iso3166 : ISO3166) (number : String)
    (hcc : isDigitStr iso3166.CountryCode = true) :
    ((validatePhoneISO3166 number iso3166).1 = true ↔
      (iso3166.PhoneNumberLengths ≠ [] ∧
        strStartsWith number iso3166.CountryCode = true ∧
        ∃ l ∈ iso3166.PhoneNumberLengths,
          strLen number = strLen iso3166.CountryCode + l)) ∧
    ((validatePhoneISO3166 number iso3166).2 = true ↔
      ((validatePhoneISO3166 number iso3166).1 = true ∧
        validateMobileISO3166 number iso3166 = true)) ∧
    (validateLandlineISO3166 number iso3166 = false →
      validatePhoneISO3166 number iso3166 = (false, false)) := by
  have hland := validateLandline_iff number iso3166 hcc
  unfold validatePhoneISO3166
  cases hv : validateLandlineISO3166 number iso3166 with
  | false =>
    rw [hv] at hland
    simp only [Bool.false_eq_true, false_iff] at hland
    simp [hland]
  | true =>
    rw [hv] at hland
    simp only [true_iff] at hland
    simp [hland]

/-- C1 (witness): the combined classification at a concrete record and
number. -/
theorem validatePhone_combined_witness :
    isDigitStr (ISO3166.mk "XX" "XXX" "X" ["9"] [3] "44").CountryCode = true ∧
    (((validatePhoneISO3166 "44912" (ISO3166.mk "XX" "XXX" "X" ["9"] [3] "44")).1 = true ↔
      ((ISO3166.mk "XX" "XXX" "X" ["9"] [3] "44").PhoneNumberLengths ≠ [] ∧
        strStartsWith "44912" (ISO3166.mk "XX" "XXX" "X" ["9"] [3] "44").CountryCode = true ∧
        ∃ l ∈ (ISO3166.mk "XX" "XXX" "X" ["9"] [3] "44").PhoneNumberLengths,
          strLen "44912" = strLen (ISO3166.mk "XX" "XXX" "X" ["9"] [3] "44").CountryCode + l)) ∧
    (((validatePhoneISO3166 "44912" (ISO3166.mk "XX" "XXX" "X" ["9"] [3] "44")).2 = true ↔
      ((validatePhoneISO3166 "44912" (ISO3166.mk "XX" "XXX" "X" ["9"] [3] "44")).1 = true ∧
        validateMobileISO3166 "44912" (ISO3166.mk "XX" "XXX" "X" ["9"] [3] "44") = true)) ∧
    (validateLandlineISO3166 "44912" (ISO3166.mk "XX" "XXX" "X" ["9"] [3] "44") = false →
      validatePhoneISO3166 "44912" (ISO3166.mk "XX" "XXX" "X" ["9"] [3] "44") = (false, false)))) :=
  ⟨by decide, validatePhone_combined (ISO3166.mk "XX" "XXX" "X" ["9"] [3] "44") "44912" (by decide)⟩

/-- C3: with digit-string country code and mobile prefixes (the data-model
invariant of the table), the mobile check succeeds exactly when the
national part — the digits with the country-code prefix stripped when
present — has an accepted length and starts with one of the mobile
prefixes; and when the empty prefix is listed, exactly when the national
part has an accepted length. -/
theorem validateMobile_characterization (iso3166 : ISO3166) (number : String)
    (hcc : isDigitStr iso3166.CountryCode = true)
    (hw : ∀ w ∈ iso3166.MobileBeginWith, isDigitStr w = true) :
    (validateMobileISO3166 number iso3166 = true ↔
      (iso3166.PhoneNumberLengths ≠ [] ∧
        ∃ l ∈ iso3166.PhoneNumberLengths,
          l = strLen (nationalPart iso3166 number) ∧
          ∃ w ∈ iso3166.MobileBeginWith,
            strStartsWith (nationalPart iso3166 number) w = true)) ∧
    ("" ∈ iso3166.MobileBeginWith →
      (validateMobileISO3166 number iso3166 = true ↔
        ∃ l ∈ iso3166.PhoneNumberLengths,
          l = strLen (nationalPart iso3166 number))) := by
  have hmain : validateMobileISO3166 number iso3166 = true ↔
      (iso3166.PhoneNumberLengths ≠ [] ∧
        ∃ l ∈ iso3166.PhoneNumberLengths,
          l = strLen (nationalPart iso3166 number) ∧
          ∃ w ∈ iso3166.MobileBeginWith,
            strStartsWith (nationalPart iso3166 number) w = true) := by
    unfold validateMobileISO3166
    rw [stripCC_eq_nationalPart iso3166 number hcc]
    by_cases hemp : iso3166.PhoneNumberLengths.length = 0
    · simp [hemp, List.length_eq_zero.mp hemp]
    · have hne : iso3166.PhoneNumberLengths ≠ [] := by
        intro h; exact hemp (by simp [h])
      simp only [hemp, ite_false, List.any_eq_true, Bool.and_eq_true, beq_iff_eq]
      constructor
      · rintro ⟨l, hl, hlen, w, hwmem, hm⟩
        rw [matchCC_eq_startsWith _ _ (hw w hwmem)] at hm
        exact ⟨hne, l, hl, hlen, w, hwmem, hm⟩
      · rintro ⟨-, l, hl, hlen, w, hwmem, hm⟩
        rw [← matchCC_eq_startsWith _ _ (hw w hwmem)] at hm
        exact ⟨l, hl, hlen, w, hwmem, hm⟩
  refine ⟨hmain, fun hempty => ?_⟩
  rw [hmain]
  constructor
  · rintro ⟨-, l, hl, hlen, -⟩
    exact ⟨l, hl, hlen⟩
  · rintro ⟨l, hl, hlen⟩
    refine ⟨by intro h; rw [h] at hl; exact absurd hl (List.not_mem_nil l), l, hl, hlen, "", hempty, ?_⟩
    simp [strStartsWith, List.isPrefixOf]

/-- C3 (witness): the mobile check at a concrete record (with the empty
mobile prefix listed) and number. -/
theorem validateMobile_characterization_witness :
    (isDigitStr (ISO3166.mk "YY" "YYY" "Y" [""] [4] "7").CountryCode = true ∧
      ∀ w ∈ (ISO3166.mk "YY" "YYY" "Y" [""] [4] "7").MobileBeginWith, isDigitStr w = true) ∧
    ((validateMobileISO3166 "79123" (ISO3166.mk "YY" "YYY" "Y" [""] [4] "7") = true ↔
      ((ISO3166.mk "YY" "YYY" "Y" [""] [4] "7").PhoneNumberLengths ≠ [] ∧
        ∃ l ∈ (ISO3166.mk "YY" "YYY" "Y" [""] [4] "7").PhoneNumberLengths,
          l = strLen (nationalPart (ISO3166.mk "YY" "YYY" "Y" [""] [4] "7") "79123") ∧
          ∃ w ∈ (ISO3166.mk "YY" "YYY" "Y" [""] [4] "7").MobileBeginWith,
            strStartsWith (nationalPart (ISO3166.mk "YY" "YYY" "Y" [""] [4] "7") "79123") w = true)) ∧
    ("" ∈ (ISO3166.mk "YY" "YYY" "Y" [""] [4] "7").MobileBeginWith →
      (validateMobileISO3166 "79123" (ISO3166.mk "YY" "YYY" "Y" [""] [4] "7") = true ↔
        ∃ l ∈ (ISO3166.mk "YY" "YYY" "Y" [""] [4] "7").PhoneNumberLengths,
          l = strLen (nationalPart (ISO3166.mk "YY" "YYY" "Y" [""] [4] "7") "79123")))) :=
  ⟨⟨by decide, by decide⟩,
    validateMobile_characterization (ISO3166.mk "YY" "YYY" "Y" [""] [4] "7") "79123"
      (by decide) (by decide)⟩

/-! ### C4: country resolution -/

theorem strLen_eq_zero_iff (s : String) : strLen s = 0 ↔ s = "" := by
  constructor
  · intro h
    cases s with
    | mk data =>
      have hd : data = [] := List.length_eq_zero.mp h
      rw [hd]
  · intro h; rw [h]; rfl

theorem findISO_eq_find? (p : ISO3166 → Bool) (l : List ISO3166) :
    findISO p l = (l.find? p).getD ISO3166.zero := by
  induction l with
  | nil => rfl
  | cons i rest ih => by_cases h : p i <;> simp [findISO, List.find?, h, ih]

/-- C4 (counterexample): `getISO3166ByCountry` does NOT trim spaces from
its input (its callers strip spaces beforehand).  On the identifier
`" US"` the claimed behaviour (trim, then two-character `Alpha2` match)
finds the record, while the source dispatches on the raw length 3 and
compares `" US"` against `Alpha3`, finding nothing. -/
theorem getISO3166ByCountry_trim_refuted :
    getISO3166ByCountry [ISO3166.mk "US" "USA" "United States" ["2"] [10] "1"] " US"
        = ISO3166.zero ∧
      getISO3166ByCountryClaim [ISO3166.mk "US" "USA" "United States" ["2"] [10] "1"] " US"
          = ISO3166.mk "US" "USA" "United States" ["2"] [10] "1" ∧
      ISO3166.mk "US" "USA" "United States" ["2"] [10] "1" ≠ ISO3166.zero := by
  refine ⟨by decide, by decide, by decide⟩

/-- C4 (amended): `getISO3166ByCountry` upper-cases its input for
comparison (it does not trim spaces) and dispatches on the raw
identifier's length — empty identifier gives the first record, length 2
matches by `Alpha2`, length 3 by `Alpha3`, any other length by
case-insensitive country name; with no match it returns the zero-value
record, and every downstream validator rejects the zero-value record. -/
theorem getISO3166ByCountry_spec_sans_trim (tbl : List ISO3166) (country n : String) :
    getISO3166ByCountry tbl country = getISO3166ByCountrySpec tbl country ∧
      validateLandlineISO3166 n ISO3166.zero = false ∧
      validateMobileISO3166 n ISO3166.zero = false ∧
      validatePhoneISO3166 n ISO3166.zero = (false, false) := by
  refine ⟨?_, ?_, ?_, ?_⟩
  · unfold getISO3166ByCountry getISO3166ByCountrySpec
    rcases hn : strLen country with _ | (_ | (_ | (_ | m)))
    · have hce := (strLen_eq_zero_iff country).mp hn
      subst hce
      simp
    · have h0 : country ≠ "" := by
        intro h; rw [h] at hn; exact absurd hn (by decide)
      show findISO (fun i => strToUpper i.CountryName == strToUpper country) tbl =
        (if country = "" then tbl.headD ISO3166.zero
         else if (1 : Nat) = 2 then
           (tbl.find? fun i => i.Alpha2 == strToUpper country).getD ISO3166.zero
         else if (1 : Nat) = 3 then
           (tbl.find? fun i => i.Alpha3 == strToUpper country).getD ISO3166.zero
         else (tbl.find? fun i => strToUpper i.CountryName == strToUpper country).getD ISO3166.zero)
      rw [if_neg h0, if_neg (by decide : ¬((1 : Nat) = 2)), if_neg (by decide : ¬((1 : Nat) = 3))]
      exact findISO_eq_find? _ tbl
    · have h0 : country ≠ "" := by
        intro h; rw [h] at hn; exact absurd hn (by decide)
      show findISO (fun i => i.Alpha2 == strToUpper country) tbl =
        (if country = "" then tbl.headD ISO3166.zero
         else if (2 : Nat) = 2 then
           (tbl.find? fun i => i.Alpha2 == strToUpper country).getD ISO3166.zero
         else if (2 : Nat) = 3 then
           (tbl.find? fun i => i.Alpha3 == strToUpper country).getD ISO3166.zero
         else (tbl.find? fun i => strToUpper i.CountryName == strToUpper country).getD ISO3166.zero)
      rw [if_neg h0, if_pos (rfl : (2 : Nat) = 2)]
      exact findISO_eq_find? _ tbl
    · have h0 : country ≠ "" := by
        intro h; rw [h] at hn; exact absurd hn (by decide)
      show findISO (fun i => i.Alpha3 == strToUpper country) tbl =
        (if country = "" then tbl.headD ISO3166.zero
         else if (3 : Nat) = 2 then
           (tbl.find? fun i => i.Alpha2 == strToUpper country).getD ISO3166.zero
         else if (3 : Nat) = 3 then
           (tbl.find? fun i => i.Alpha3 == strToUpper country).getD ISO3166.zero
         else (tbl.find? fun i => strToUpper i.CountryName == strToUpper country).getD ISO3166.zero)
      rw [if_neg h0, if_neg (by decide : ¬((3 : Nat) = 2)), if_pos (rfl : (3 : Nat) = 3)]
      exact findISO_eq_find? _ tbl
    · have h0 : country ≠ "" := by
        intro h; rw [h] at hn
        rw [show strLen "" = 0 from rfl] at hn
        omega
      show findISO (fun i => strToUpper i.CountryName == strToUpper country) tbl =
        (if country = "" then tbl.headD ISO3166.zero
         else if m + 1 + 1 + 1 + 1 = 2 then
           (tbl.find? fun i => i.Alpha2 == strToUpper country).getD ISO3166.zero
         else if m + 1 + 1 + 1 + 1 = 3 then
           (tbl.find? fun i => i.Alpha3 == strToUpper country).getD ISO3166.zero
         else (tbl.find? fun i => strToUpper i.CountryName == strToUpper country).getD ISO3166.zero)
      have h2 : ¬(m + 1 + 1 + 1 + 1 = 2) := by omega
      have h3 : ¬(m + 1 + 1 + 1 + 1 = 3) := by omega
      rw [if_neg h0, if_neg h2, if_neg h3]
      exact findISO_eq_find? _ tbl
  · simp [validateLandlineISO3166, ISO3166.zero]
  · simp [validateMobileISO3166, ISO3166.zero]
  · simp [validatePhoneISO3166, validateLandlineISO3166, ISO3166.zero]

/-! ### C6 / C10: lookup-by-number -/

theorem any_congr_mem {α : Type} (l : List α) (p q : α → Bool)
    (h : ∀ a ∈ l, p a = q a) : l.any p = l.any q := by
  induction l with
  | nil => rfl
  | cons a as ih =>
    simp only [List.any_cons, h a (by simp)]
    rw [ih (fun b hb => h b (by simp [hb]))]

theorem isDigitStr_append (a b : String) (ha : isDigitStr a = true)
    (hb : isDigitStr b = true) : isDigitStr (a ++ b) = true := by
  have hd : (a ++ b).data = a.data ++ b.data := rfl
  simp only [isDigitStr, hd, List.all_append]
  rw [Bool.and_eq_true]
  exact ⟨ha, hb⟩

theorem mobileLoopHit_eq_mobileMatch (i : ISO3166) (number : String)
    (hwf : WFrec i) : mobileLoopHit i number = mobileMatch i number := by
  unfold mobileLoopHit mobileMatch
  apply any_congr_mem
  intro w hw
  exact matchCC_eq_startsWith _ _ (isDigitStr_append _ _ hwf.1 (hwf.2 w hw))

theorem lengthsLoop_characterization (i : ISO3166) (number : String) (wl : Bool)
    (ls : List Nat) :
    lengthsLoop i number wl ls =
      (if matchCC i.CountryCode number &&
          ls.any (fun l => strLen number == strLen i.CountryCode + l) then
        (if mobileLoopHit i number then .ret i else if wl then .cand else .next)
      else .next) := by
  induction ls with
  | nil => simp [lengthsLoop]
  | cons l ls ih =>
    by_cases hguard :
        (matchCC i.CountryCode number && (strLen number == strLen i.CountryCode + l)) = true
    · have hm : matchCC i.CountryCode number = true := (Bool.and_eq_true_iff.mp hguard).1
      have hl : (strLen number == strLen i.CountryCode + l) = true :=
        (Bool.and_eq_true_iff.mp hguard).2
      have hc : (matchCC i.CountryCode number &&
          List.any (l :: ls) fun l => strLen number == strLen i.CountryCode + l) = true := by
        simp [List.any_cons, hm, hl]
      simp only [lengthsLoop]
      rw [if_pos hguard, if_pos hc]
      by_cases hmob : mobileLoopHit i number = true
      · simp [hmob]
      · simp only [Bool.not_eq_true] at hmob
        cases wl with
        | true => simp [hmob]
        | false =>
          simp only [hmob, Bool.false_eq_true, if_false]
          rw [ih]
          simp [hmob]
    · have hcond : (matchCC i.CountryCode number &&
          List.any (l :: ls) fun l => strLen number == strLen i.CountryCode + l) =
          (matchCC i.CountryCode number &&
            ls.any fun l => strLen number == strLen i.CountryCode + l) := by
        cases hm : matchCC i.CountryCode number <;>
          cases hl : (strLen number == strLen i.CountryCode + l) <;>
            simp_all [List.any_cons]
      simp only [lengthsLoop]
      rw [if_neg hguard, ih, hcond]

/-- The per-country scan step in the claim's (spec) vocabulary, assuming
the record satisfies the data-model invariant. -/
theorem lengthsLoop_spec (i : ISO3166) (number : String) (wl : Bool)
    (hwf : WFrec i) :
    lengthsLoop i number wl i.PhoneNumberLengths =
      (if landlineMatch i number then
        (if mobileMatch i number then .ret i else if wl then .cand else .next)
      else .next) := by
  rw [lengthsLoop_characterization, mobileLoopHit_eq_mobileMatch i number hwf]
  have : (matchCC i.CountryCode number &&
      i.PhoneNumberLengths.any fun l => strLen number == strLen i.CountryCode + l) =
      landlineMatch i number := by
    unfold landlineMatch
    rw [matchCC_eq_startsWith _ _ hwf.1]
  rw [this]

theorem strAppend_empty (s : String) : s ++ "" = s := by
  cases s with
  | mk data =>
    have h : (String.mk data) ++ "" = String.mk (data ++ []) := rfl
    rw [h, List.append_nil]

theorem tableLoop_characterization (number : String) (wl : Bool) :
    ∀ tbl : List ISO3166, (∀ i ∈ tbl, WFrec i) → ∀ acc : ISO3166,
      tableLoop number wl tbl acc =
        (match tbl.find? fun i => landlineMatch i number && mobileMatch i number with
         | some i => i
         | none =>
           if wl then lastD (tbl.filter fun i => landlineMatch i number) acc
           else acc) := by
  intro tbl
  induction tbl with
  | nil =>
    intro _ acc
    simp [tableLoop, List.find?, lastD]
  | cons i rest ih =>
    intro hwf acc
    have hwfi : WFrec i := hwf i (by simp)
    have hwfr : ∀ j ∈ rest, WFrec j := fun j hj => hwf j (by simp [hj])
    simp only [tableLoop]
    rw [lengthsLoop_spec i number wl hwfi]
    by_cases hl : landlineMatch i number = true
    · by_cases hm : mobileMatch i number = true
      · rw [if_pos hl, if_pos hm]
        rw [List.find?_cons_of_pos _ (by simp [hl, hm])]
      · rw [if_pos hl, if_neg (by simp [hm])]
        cases wl with
        | true =>
          show tableLoop number true rest i = _
          rw [ih hwfr i]
          rw [List.find?_cons_of_neg _ (by simp [hl, hm]),
            List.filter_cons_of_pos (by simp [hl])]
          cases hfind : rest.find? fun j => landlineMatch j number && mobileMatch j number with
          | some j => simp [hfind]
          | none => simp [hfind, lastD]
        | false =>
          show tableLoop number false rest acc = _
          rw [ih hwfr acc]
          rw [List.find?_cons_of_neg _ (by simp [hl, hm])]
          cases hfind : rest.find? fun j => landlineMatch j number && mobileMatch j number with
          | some j => simp [hfind]
          | none => simp [hfind]
    · rw [if_neg hl]
      show tableLoop number wl rest acc = _
      rw [ih hwfr acc]
      rw [List.find?_cons_of_neg _ (by simp [hl]),
        List.filter_cons_of_neg (by simp [hl])]

/-- C6: with every record of the table satisfying the data-model invariant
(digit-string country code and mobile prefixes), `GetISO3166ByNumber`
computes exactly the claim's description: the first country whose
country-code prefix and total length match AND whose `countryCode + w`
prefix matches for some mobile prefix `w` is returned immediately;
otherwise, with `withLandLine`, the LAST country matching the landline
condition is returned (the candidate is overwritten while scanning
continues); otherwise — in particular always when `withLandLine` is false
and no mobile match exists — the zero record. -/
theorem getISO3166ByNumber_eq_spec (tbl : List ISO3166) (number : String) (wl : Bool)
    (hwf : ∀ i ∈ tbl, WFrec i) :
    GetISO3166ByNumber tbl number wl = getISO3166ByNumberSpec tbl number wl := by
  unfold GetISO3166ByNumber getISO3166ByNumberSpec
  rw [tableLoop_characterization number wl tbl hwf ISO3166.zero]

/-- C6 (witness): the lookup equivalence on a concrete two-record table,
where the number matches the second record only by the landline rule. -/
theorem getISO3166ByNumber_eq_spec_witness :
    (∀ i ∈ [ISO3166.mk "AA" "AAA" "A" ["9"] [4] "7",
             ISO3166.mk "BB" "BBB" "B" ["5"] [3] "7"], WFrec i) ∧
      GetISO3166ByNumber [ISO3166.mk "AA" "AAA" "A" ["9"] [4] "7",
          ISO3166.mk "BB" "BBB" "B" ["5"] [3] "7"] "7123" true =
        getISO3166ByNumberSpec [ISO3166.mk "AA" "AAA" "A" ["9"] [4] "7",
          ISO3166.mk "BB" "BBB" "B" ["5"] [3] "7"] "7123" true :=
  ⟨by decide,
    getISO3166ByNumber_eq_spec
      [ISO3166.mk "AA" "AAA" "A" ["9"] [4] "7",
        ISO3166.mk "BB" "BBB" "B" ["5"] [3] "7"] "7123" true (by decide)⟩

/-- C10: if a country's `MobileBeginWith` contains the empty string, then
any number starting with its country code whose total length is the
country-code length plus an accepted length makes the inner scan return
that country immediately as a mobile match — for BOTH values of
`withLandLine` — so the country is never recorded as a landline-only
candidate; with that country at the head of the table,
`GetISO3166ByNumber` returns it. -/
theorem emptyMobileBeginWith_immediate (tbl : List ISO3166) (i : ISO3166)
    (number : String) (wl : Bool)
    (hcc : isDigitStr i.CountryCode = true)
    (hempty : "" ∈ i.MobileBeginWith)
    (hpre : strStartsWith number i.CountryCode = true)
    (hlen : ∃ l ∈ i.PhoneNumberLengths, strLen number = strLen i.CountryCode + l) :
    lengthsLoop i number wl i.PhoneNumberLengths = ScanOutcome.ret i ∧
      GetISO3166ByNumber (i :: tbl) number wl = i := by
  have hmob : mobileLoopHit i number = true := by
    unfold mobileLoopHit
    rw [List.any_eq_true]
    refine ⟨"", hempty, ?_⟩
    rw [strAppend_empty, matchCC_eq_startsWith _ _ hcc]
    exact hpre
  have hloop : lengthsLoop i number wl i.PhoneNumberLengths = ScanOutcome.ret i := by
    rw [lengthsLoop_characterization]
    have hcond : (matchCC i.CountryCode number &&
        i.PhoneNumberLengths.any fun l => strLen number == strLen i.CountryCode + l) = true := by
      rw [matchCC_eq_startsWith _ _ hcc]
      rcases hlen with ⟨l, hmem, hle⟩
      simp only [hpre, Bool.true_and, List.any_eq_true]
      exact ⟨l, hmem, by simp [hle]⟩
    rw [if_pos hcond, if_pos hmob]
  refine ⟨hloop, ?_⟩
  unfold GetISO3166ByNumber
  simp only [tableLoop]
  rw [hloop]

/-- C10 (witness): with the empty mobile prefix listed, a landline-length
match is returned immediately even with `withLandLine = false`. -/
theorem emptyMobileBeginWith_immediate_witness :
    (isDigitStr (ISO3166.mk "AA" "AAA" "A" [""] [3] "9").CountryCode = true ∧
      "" ∈ (ISO3166.mk "AA" "AAA" "A" [""] [3] "9").MobileBeginWith ∧
      strStartsWith "9123" (ISO3166.mk "AA" "AAA" "A" [""] [3] "9").CountryCode = true ∧
      ∃ l ∈ (ISO3166.mk "AA" "AAA" "A" [""] [3] "9").PhoneNumberLengths,
        strLen "9123" = strLen (ISO3166.mk "AA" "AAA" "A" [""] [3] "9").CountryCode + l) ∧
    (lengthsLoop (ISO3166.mk "AA" "AAA" "A" [""] [3] "9") "9123" false
        (ISO3166.mk "AA" "AAA" "A" [""] [3] "9").PhoneNumberLengths = ScanOutcome.ret
          (ISO3166.mk "AA" "AAA" "A" [""] [3] "9") ∧
      GetISO3166ByNumber [ISO3166.mk "AA" "AAA" "A" [""] [3] "9"] "9123" false =
        ISO3166.mk "AA" "AAA" "A" [""] [3] "9") :=
  ⟨⟨by decide, by decide, by decide, by decide⟩,
    emptyMobileBeginWith_immediate [] (ISO3166.mk "AA" "AAA" "A" [""] [3] "9") "9123" false
      (by decide) (by decide) (by decide) (by decide)⟩

/-! ### C7 / C8: normalization lemmas -/

theorem strMk_data (s : String) : String.mk s.data = s := by
  cases s with
  | mk data => rfl

theorem stripSpaces_of_digits (s : String) (h : isDigitStr s = true) :
    stripSpaces s = s := by
  unfold stripSpaces
  rw [List.filter_eq_self.mpr, strMk_data]
  intro a ha
  have hd := (List.all_eq_true.mp h) a ha
  simp only [Bool.not_eq_true']
  cases hb : (a == ' ') with
  | false => rfl
  | true =>
    rw [beq_iff_eq.mp hb] at hd
    exact absurd hd (by decide)

theorem digitsOnly_of_digits (s : String) (h : isDigitStr s = true) :
    digitsOnly s = s := by
  unfold digitsOnly
  rw [List.filter_eq_self.mpr (List.all_eq_true.mp h), strMk_data]

theorem not_startsWith_plus_of_digits (s : String) (h : isDigitStr s = true) :
    strStartsWith s "+" = false := by
  unfold strStartsWith
  cases hd : s.data with
  | nil => rfl
  | cons c cs =>
    have hc : isGoDigit c = true := by
      have := List.all_eq_true.mp h
      exact this c (by rw [hd]; exact List.mem_cons_self c cs)
    show List.isPrefixOf ['+'] (c :: cs) = false
    rw [List.isPrefixOf_cons₂]
    have : ('+' == c) = false := by
      cases hb : ('+' == c) with
      | false => rfl
      | true =>
        rw [← beq_iff_eq.mp hb] at hc
        exact absurd hc (by decide)
    rw [this, Bool.false_and]

theorem removeFirst_of_isPrefixOf (p s : List Char) (h : p.isPrefixOf s = true) :
    removeFirst s p = s.drop p.length := by
  cases p with
  | nil => cases s <;> rfl
  | cons a ps =>
    cases s with
    | nil => simp [List.isPrefixOf] at h
    | cons c cs =>
      unfold removeFirst
      rw [if_pos h]

theorem startsWith_recombine (s p : String) (h : strStartsWith s p = true) :
    p ++ strDrop s (strLen p) = s := by
  rcases (strStartsWith_iff_exists s p).mp h with ⟨t, ht⟩
  have h1 : strDrop s (strLen p) = String.mk t := by
    unfold strDrop strLen
    rw [ht]
    rw [show p.data.length = (p.data).length from rfl, List.drop_left]
  rw [h1]
  have h2 : p ++ String.mk t = String.mk (p.data ++ t) := rfl
  rw [h2, ← ht, strMk_data]

theorem dropWhile_eq_self_of_head (p : Char → Bool) (l : List Char)
    (h : ∀ c cs, l = c :: cs → p c = false) : l.dropWhile p = l := by
  cases l with
  | nil => rw [List.dropWhile_nil]
  | cons c cs =>
    rw [List.dropWhile_cons, h c cs rfl]
    simp

theorem stripLeadingZeros_of_not_zero (s : String)
    (h : strStartsWith s "0" = false) : stripLeadingZeros s = s := by
  unfold stripLeadingZeros
  rw [dropWhile_eq_self_of_head, strMk_data]
  intro c cs hd
  unfold strStartsWith at h
  rw [hd] at h
  cases hb : (c == '0') with
  | false => rfl
  | true =>
    have h0 : List.isPrefixOf ['0'] (c :: cs) = true := by
      rw [show List.isPrefixOf ['0'] (c :: cs)
          = (('0' == c) && List.isPrefixOf ([] : List Char) cs) from rfl]
      have hcb : ('0' == c) = true := by
        rw [beq_iff_eq]
        exact (beq_iff_eq.mp hb).symm
      rw [hcb, List.isPrefixOf_nil_left, Bool.and_true]
    rw [show ("0" : String).data = ['0'] from rfl, h0] at h
    exact Bool.noConfusion h

theorem isDigitStr_digitsOnly (s : String) : isDigitStr (digitsOnly s) = true := by
  simp only [isDigitStr, digitsOnly, List.all_eq_true]
  intro x hx
  exact (List.mem_filter.mp hx).2

theorem allDigits_removeFirst (s p : List Char) (h : s.all isGoDigit = true) :
    (removeFirst s p).all isGoDigit = true := by
  induction s with
  | nil => cases p <;> simp [removeFirst]
  | cons c cs ih =>
    cases p with
    | nil => exact h
    | cons a ps =>
      unfold removeFirst
      by_cases hp : (a :: ps).isPrefixOf (c :: cs) = true
      · rw [if_pos hp]
        rw [List.all_eq_true] at h ⊢
        intro x hx
        exact h x (List.drop_subset _ _ hx)
      · rw [if_neg hp]
        simp only [List.all_cons, Bool.and_eq_true] at h ⊢
        exact ⟨h.1, ih h.2⟩

theorem allDigits_dropWhile (p : Char → Bool) (l : List Char)
    (h : l.all isGoDigit = true) : (l.dropWhile p).all isGoDigit = true := by
  rw [List.all_eq_true] at h ⊢
  intro x hx
  exact h x ((List.dropWhile_sublist p).subset hx)

theorem isDigitStr_stepTrunkZero (cc x : String) (hcc : isDigitStr cc = true)
    (hx : isDigitStr x = true) : isDigitStr (stepTrunkZero cc x) = true := by
  unfold stepTrunkZero
  by_cases hpre : strStartsWith x cc = true
  · rw [if_pos hpre]
    have h1 : isDigitStr (removeFirstStr x cc) = true :=
      allDigits_removeFirst x.data cc.data hx
    show isDigitStr (cc ++
      (if strStartsWith (removeFirstStr x cc) "0" = true then
        removeFirstStr (removeFirstStr x cc) "0"
      else removeFirstStr x cc)) = true
    by_cases h0 : strStartsWith (removeFirstStr x cc) "0" = true
    · rw [if_pos h0]
      exact isDigitStr_append _ _ hcc
        (allDigits_removeFirst (removeFirstStr x cc).data ("0" : String).data h1)
    · rw [if_neg h0]
      exact isDigitStr_append _ _ hcc h1
  · rw [if_neg hpre]
    exact hx

theorem isDigitStr_stepLeadZeros (a3 x : String) (hx : isDigitStr x = true) :
    isDigitStr (stepLeadZeros a3 x) = true := by
  unfold stepLeadZeros
  by_cases he : indexOfString a3 ["GAB", "CIV", "COG"] = -1
  · rw [if_pos he]
    exact allDigits_dropWhile _ _ hx
  · rw [if_neg he]
    exact hx

theorem isDigitStr_stepRus (a3 x : String) (hx : isDigitStr x = true) :
    isDigitStr (stepRus a3 x) = true := by
  unfold stepRus
  by_cases hr : (a3 == "RUS" && strLen x == 11 && strStartsWith x "89") = true
  · rw [if_pos hr]
    exact allDigits_dropWhile _ _ hx
  · rw [if_neg hr]
    exact hx

theorem isDigitStr_stepAttach (iso3166 : ISO3166) (x : String)
    (hcc : isDigitStr iso3166.CountryCode = true) (hx : isDigitStr x = true) :
    isDigitStr (stepAttach iso3166 x) = true := by
  unfold stepAttach
  by_cases ha : indexOfInt (strLen x) iso3166.PhoneNumberLengths ≠ -1
  · rw [if_pos ha]
    exact isDigitStr_append _ _ hcc hx
  · rw [if_neg ha]
    exact hx

/-- The function `parseInternal` written without the intermediate
bindings. -/
theorem parseInternal_eq (tbl : List ISO3166) (n c : String) :
    parseInternal tbl n c =
      (if strStartsWith (stripSpaces n) "+" && (stripSpaces c == "") then ("", ISO3166.zero)
       else
        (stepAttach (getISO3166ByCountry tbl (stripSpaces c))
          (stepRus (getISO3166ByCountry tbl (stripSpaces c)).Alpha3
            (stepLeadZeros (getISO3166ByCountry tbl (stripSpaces c)).Alpha3
              (stepTrunkZero (getISO3166ByCountry tbl (stripSpaces c)).CountryCode
                (digitsOnly (stripSpaces n))))),
         getISO3166ByCountry tbl (stripSpaces c))) := rfl

theorem isDigitStr_parseInternal (tbl : List ISO3166) (n c : String)
    (hcc : isDigitStr (getISO3166ByCountry tbl (stripSpaces c)).CountryCode = true) :
    isDigitStr (parseInternal tbl n c).1 = true := by
  rw [parseInternal_eq]
  by_cases hb : (strStartsWith (stripSpaces n) "+" && (stripSpaces c == "")) = true
  · rw [if_pos hb]
    rfl
  · rw [if_neg hb]
    exact isDigitStr_stepAttach _ _ hcc
      (isDigitStr_stepRus _ _ (isDigitStr_stepLeadZeros _ _
        (isDigitStr_stepTrunkZero _ _ hcc (isDigitStr_digitsOnly _))))

theorem removeFirstStr_of_startsWith (s p : String) (h : strStartsWith s p = true) :
    removeFirstStr s p = strDrop s (strLen p) := by
  unfold removeFirstStr strDrop strLen
  rw [removeFirst_of_isPrefixOf p.data s.data h]

theorem stepTrunkZero_fixed (cc d : String) (hpre0 : strStartsWith d cc = true →
    strStartsWith (strDrop d (strLen cc)) "0" = false) :
    stepTrunkZero cc d = d := by
  unfold stepTrunkZero
  by_cases hpre : strStartsWith d cc = true
  · rw [if_pos hpre]
    show cc ++
      (if strStartsWith (removeFirstStr d cc) "0" = true then
        removeFirstStr (removeFirstStr d cc) "0"
      else removeFirstStr d cc) = d
    rw [removeFirstStr_of_startsWith d cc hpre, if_neg (by simp [hpre0 hpre])]
    exact startsWith_recombine d cc hpre
  · rw [if_neg hpre]

/-- Re-running `parseInternal` on a digit string is the identity provided
none of the rewriting steps fires: no trunk zero after the country code,
no leading zero (when the country is not a leading-zero exception), no
Russian-locale rewrite, and the total length is not itself an accepted
national length. -/
theorem parseInternal_fixed (tbl : List ISO3166) (c d : String) (iso3166 : ISO3166)
    (hiso : getISO3166ByCountry tbl (stripSpaces c) = iso3166)
    (hd : isDigitStr d = true)
    (ha : strStartsWith d iso3166.CountryCode = true →
      strStartsWith (strDrop d (strLen iso3166.CountryCode)) "0" = false)
    (hb : indexOfString iso3166.Alpha3 ["GAB", "CIV", "COG"] = -1 →
      strStartsWith d "0" = false)
    (hrus : (iso3166.Alpha3 == "RUS" && strLen d == 11 && strStartsWith d "89") = false)
    (hlen : indexOfInt (strLen d) iso3166.PhoneNumberLengths = -1) :
    parseInternal tbl d c = (d, iso3166) := by
  rw [parseInternal_eq, stripSpaces_of_digits d hd, hiso,
    not_startsWith_plus_of_digits d hd, Bool.false_and]
  rw [if_neg (by simp)]
  rw [digitsOnly_of_digits d hd, stepTrunkZero_fixed iso3166.CountryCode d ha]
  have hlz : stepLeadZeros iso3166.Alpha3 d = d := by
    unfold stepLeadZeros
    by_cases he : indexOfString iso3166.Alpha3 ["GAB", "CIV", "COG"] = -1
    · rw [if_pos he]
      exact stripLeadingZeros_of_not_zero d (hb he)
    · rw [if_neg he]
  rw [hlz]
  have hru : stepRus iso3166.Alpha3 d = d := by
    unfold stepRus
    rw [hrus]
    simp
  rw [hru]
  have hat : stepAttach iso3166 d = d := by
    unfold stepAttach
    rw [if_neg (fun hn => hn hlen)]
  rw [hat]

/-- C7 (counterexample): normalization is NOT idempotent on all successful
parses.  With a record whose accepted lengths contain both 7 and 8
(= 7 + len countryCode), `Parse` maps `"1234567"` to `"11234567"` (valid
mobile), but re-normalizing `"11234567"` prepends the country code again,
yielding `"111234567"`. -/
theorem parse_idempotent_refuted :
    Parse [ISO3166.mk "XX" "XXX" "X" [""] [7, 8] "1"] "1234567" "XX" = "11234567" ∧
      (parseInternal [ISO3166.mk "XX" "XXX" "X" [""] [7, 8] "1"] "11234567" "XX").1
        ≠ "11234567" :=
  ⟨by decide, by decide⟩

/-- C7 (amended): re-normalizing a successful parse result `d` is the
identity provided none of the rewriting steps of `parseInternal` can fire
on `d` itself: the national remainder after the country code has no
leading zero, `d` has no leading zero (unless the country is a
leading-zero exception), the Russian-locale rule does not match, and the
total length of `d` is not itself an accepted national length. -/
theorem parse_idempotent_amended (tbl : List ISO3166) (n c d : String)
    (iso3166 : ISO3166)
    (hiso : getISO3166ByCountry tbl (stripSpaces c) = iso3166)
    (hcc : isDigitStr iso3166.CountryCode = true)
    (hparse : Parse tbl n c = d) (hne : d ≠ "")
    (ha : strStartsWith d iso3166.CountryCode = true →
      strStartsWith (strDrop d (strLen iso3166.CountryCode)) "0" = false)
    (hb : indexOfString iso3166.Alpha3 ["GAB", "CIV", "COG"] = -1 →
      strStartsWith d "0" = false)
    (hrus : (iso3166.Alpha3 == "RUS" && strLen d == 11 && strStartsWith d "89") = false)
    (hlen : indexOfInt (strLen d) iso3166.PhoneNumberLengths = -1) :
    (parseInternal tbl d c).1 = d := by
  have hP : Parse tbl n c =
      (if validateMobileISO3166 (parseInternal tbl n c).1 (parseInternal tbl n c).2 = true
        then (parseInternal tbl n c).1 else "") := rfl
  have hd : isDigitStr d = true := by
    by_cases hv : validateMobileISO3166 (parseInternal tbl n c).1 (parseInternal tbl n c).2 = true
    · rw [hP, if_pos hv] at hparse
      rw [← hparse]
      exact isDigitStr_parseInternal tbl n c (by rw [hiso]; exact hcc)
    · rw [hP, if_neg hv] at hparse
      exact absurd hparse.symm hne
  rw [parseInternal_fixed tbl c d iso3166 hiso hd ha hb hrus hlen]

/-- C7 (witness): the amended idempotence at a concrete France-like record
and a successfully parsed number. -/
theorem parse_idempotent_amended_witness :
    (getISO3166ByCountry [ISO3166.mk "FR" "FRA" "France" ["6", "7"] [9] "33"]
        (stripSpaces "FR") = ISO3166.mk "FR" "FRA" "France" ["6", "7"] [9] "33" ∧
      isDigitStr (ISO3166.mk "FR" "FRA" "France" ["6", "7"] [9] "33").CountryCode = true ∧
      Parse [ISO3166.mk "FR" "FRA" "France" ["6", "7"] [9] "33"] "0612345678" "FR"
        = "33612345678" ∧
      ("33612345678" : String) ≠ "" ∧
      (strStartsWith "33612345678"
          (ISO3166.mk "FR" "FRA" "France" ["6", "7"] [9] "33").CountryCode = true →
        strStartsWith (strDrop "33612345678"
          (strLen (ISO3166.mk "FR" "FRA" "France" ["6", "7"] [9] "33").CountryCode)) "0"
            = false) ∧
      (indexOfString (ISO3166.mk "FR" "FRA" "France" ["6", "7"] [9] "33").Alpha3
          ["GAB", "CIV", "COG"] = -1 →
        strStartsWith "33612345678" "0" = false) ∧
      ((ISO3166.mk "FR" "FRA" "France" ["6", "7"] [9] "33").Alpha3 == "RUS" &&
          strLen "33612345678" == 11 && strStartsWith "33612345678" "89") = false ∧
      indexOfInt (strLen "33612345678")
        (ISO3166.mk "FR" "FRA" "France" ["6", "7"] [9] "33").PhoneNumberLengths = -1) ∧
    (parseInternal [ISO3166.mk "FR" "FRA" "France" ["6", "7"] [9] "33"]
        "33612345678" "FR").1 = "33612345678" :=
  ⟨⟨by decide, by decide, by decide, by decide, by decide, by decide, by decide, by decide⟩,
    parse_idempotent_amended [ISO3166.mk "FR" "FRA" "France" ["6", "7"] [9] "33"]
      "0612345678" "FR" "33612345678" (ISO3166.mk "FR" "FRA" "France" ["6", "7"] [9] "33")
      (by decide) (by decide) (by decide) (by decide) (by decide) (by decide) (by decide)
      (by decide)⟩

theorem strEmpty_append (s : String) : "" ++ s = s := by
  show String.mk (("" : String).data ++ s.data) = s
  rw [show ("" : String).data = [] from rfl, List.nil_append, strMk_data]

theorem removeFirst_nil_pat (s : List Char) : removeFirst s [] = s := by
  cases s <;> rfl

theorem startsWith_empty (s : String) : strStartsWith s "" = true := by
  show List.isPrefixOf [] s.data = true
  exact List.isPrefixOf_nil_left

theorem startsWith_zero_append (n : String) : strStartsWith ("0" ++ n) "0" = true := by
  show List.isPrefixOf ['0'] ('0' :: n.data) = true
  rw [List.isPrefixOf_cons₂, List.isPrefixOf_nil_left]
  simp

theorem stripLeadingZeros_zero_append (n : String) :
    stripLeadingZeros ("0" ++ n) = stripLeadingZeros n := by
  unfold stripLeadingZeros
  rw [show ("0" ++ n).data = '0' :: n.data from rfl, List.dropWhile_cons]
  simp

theorem removeFirstStr_zero_append (n : String) :
    removeFirstStr ("0" ++ n) "0" = n := by
  rw [removeFirstStr_of_startsWith _ _ (startsWith_zero_append n)]
  show String.mk (('0' :: n.data).drop 1) = n
  exact strMk_data n

theorem stepTrunkZero_empty_cc (m : String) :
    stepTrunkZero "" m =
      (if strStartsWith m "0" = true then removeFirstStr m "0" else m) := by
  unfold stepTrunkZero
  rw [if_pos (startsWith_empty m)]
  show "" ++
    (if strStartsWith (removeFirstStr m "") "0" = true then
      removeFirstStr (removeFirstStr m "") "0"
    else removeFirstStr m "") = _
  have hrm : removeFirstStr m "" = m := by
    show String.mk (removeFirst m.data ([] : List Char)) = m
    rw [removeFirst_nil_pat, strMk_data]
  rw [hrm, strEmpty_append]

/-- The leading-zero strip absorbs a stripped or unstripped single leading
zero: both branches of the empty-country-code trunk step rewrite to the
same value after `stripLeadingZeros`. -/
theorem stripLeadingZeros_after_empty_cc (n : String) :
    stripLeadingZeros (stepTrunkZero "" ("0" ++ n)) =
      stripLeadingZeros (stepTrunkZero "" n) := by
  rw [stepTrunkZero_empty_cc, stepTrunkZero_empty_cc,
    if_pos (startsWith_zero_append n), removeFirstStr_zero_append]
  by_cases h0 : strStartsWith n "0" = true
  · rw [if_pos h0, removeFirstStr_of_startsWith _ _ h0]
    rcases (strStartsWith_iff_exists n "0").mp h0 with ⟨t, ht⟩
    unfold stripLeadingZeros strDrop
    rw [ht]
    rw [show (("0" : String).data ++ t).drop (strLen "0") = t from rfl]
    rw [show ("0" : String).data ++ t = '0' :: t from rfl, List.dropWhile_cons]
    simp
  · rw [if_neg h0]

/-- Core of the trunk-zero invariant: after the (unconditional)
leading-zero strip, parsing `"0" ++ n` and parsing `n` agree at the
trunk-zero step, provided the country code has no leading zero and the
national remainder of `n` after the country code has no leading zero. -/
theorem stripLead_stepTrunk_zero (cc n : String)
    (hsafe : cc = "" ∨
      (strStartsWith cc "0" = false ∧
        (strStartsWith n cc = true →
          strStartsWith (strDrop n (strLen cc)) "0" = false))) :
    stripLeadingZeros (stepTrunkZero cc ("0" ++ n)) =
      stripLeadingZeros (stepTrunkZero cc n) := by
  rcases hsafe with hce | ⟨hcc0, htz⟩
  · rw [hce]
    exact stripLeadingZeros_after_empty_cc n
  · by_cases hce : cc = ""
    · rw [hce]
      exact stripLeadingZeros_after_empty_cc n
    · have hd : cc.data ≠ [] := by
        intro h
        exact hce (by rw [← strMk_data cc, h])
      rcases hdd : cc.data with _ | ⟨ch, ccs⟩
      · exact absurd hdd hd
      · have hne0 : (ch == '0') = false := by
          cases hb : ch == '0' with
          | false => rfl
          | true =>
            unfold strStartsWith at hcc0
            rw [hdd, show ("0" : String).data = ['0'] from rfl, List.isPrefixOf_cons₂,
              List.isPrefixOf_nil_left, Bool.and_true] at hcc0
            rw [show ch = '0' from beq_iff_eq.mp hb] at hcc0
            simp at hcc0
        have hleft : strStartsWith ("0" ++ n) cc = false := by
          unfold strStartsWith
          rw [hdd, show ("0" ++ n).data = '0' :: n.data from rfl, List.isPrefixOf_cons₂]
          rw [hne0, Bool.false_and]
        rw [show stepTrunkZero cc ("0" ++ n) = "0" ++ n from by
          unfold stepTrunkZero; rw [if_neg (by simp [hleft])]]
        rw [stripLeadingZeros_zero_append]
        by_cases hpre : strStartsWith n cc = true
        · rw [stepTrunkZero_fixed cc n (fun _ => htz hpre)]
        · rw [show stepTrunkZero cc n = n from by
            unfold stepTrunkZero; rw [if_neg hpre]]

/-- C8 (counterexample): the trunk-zero stripping invariant fails as
stated.  With a (non-exception) record `cc = "7"`, lengths `[5]` and the
all-digit national string `n = "70123"` of accepted length 5,
`parse("0" + n)` yields `"770123"` while `parse(n)` strips the zero after
the country-code prefix, fails the length test and yields `""`. -/
theorem parse_trunk_zero_refuted :
    isDigitStr "70123" = true ∧
      indexOfString (ISO3166.mk "XX" "XXX" "X" [""] [5] "7").Alpha3
        ["GAB", "CIV", "COG"] = -1 ∧
      indexOfInt (strLen "70123")
        (ISO3166.mk "XX" "XXX" "X" [""] [5] "7").PhoneNumberLengths ≠ -1 ∧
      Parse [ISO3166.mk "XX" "XXX" "X" [""] [5] "7"] ("0" ++ "70123") "XX" = "770123" ∧
      Parse [ISO3166.mk "XX" "XXX" "X" [""] [5] "7"] "70123" "XX" = "" ∧
      Parse [ISO3166.mk "XX" "XXX" "X" [""] [5] "7"] ("0" ++ "70123") "XX" ≠
        Parse [ISO3166.mk "XX" "XXX" "X" [""] [5] "7"] "70123" "XX" :=
  ⟨by decide, by decide, by decide, by decide, by decide, by decide⟩

/-- C8 (amended): the trunk-zero stripping invariant
`parse("0" + n, c) = parse(n, c)` holds for every all-digit national
string `n` and country outside the leading-zero exception set, provided
additionally that the country code has no leading zero (or is empty) and
that `n` does not consist of the country code followed by a zero (in
which case `parse(n, c)` itself strips that zero and the two sides
diverge). -/
theorem parse_trunk_zero_amended (tbl : List ISO3166) (c n : String)
    (iso3166 : ISO3166)
    (hiso : getISO3166ByCountry tbl (stripSpaces c) = iso3166)
    (hn : isDigitStr n = true)
    (hexc : indexOfString iso3166.Alpha3 ["GAB", "CIV", "COG"] = -1)
    (hlen : indexOfInt (strLen n) iso3166.PhoneNumberLengths ≠ -1)
    (hsafe : iso3166.CountryCode = "" ∨
      (strStartsWith iso3166.CountryCode "0" = false ∧
        (strStartsWith n iso3166.CountryCode = true →
          strStartsWith (strDrop n (strLen iso3166.CountryCode)) "0" = false))) :
    Parse tbl ("0" ++ n) c = Parse tbl n c ∧
      (parseInternal tbl ("0" ++ n) c).1 = (parseInternal tbl n c).1 := by
  have h0n : isDigitStr ("0" ++ n) = true := isDigitStr_append "0" n (by decide) hn
  have hL : parseInternal tbl ("0" ++ n) c =
      (stepAttach iso3166 (stepRus iso3166.Alpha3 (stepLeadZeros iso3166.Alpha3
        (stepTrunkZero iso3166.CountryCode ("0" ++ n)))), iso3166) := by
    rw [parseInternal_eq, stripSpaces_of_digits _ h0n, hiso,
      not_startsWith_plus_of_digits _ h0n, Bool.false_and, if_neg (by simp),
      digitsOnly_of_digits _ h0n]
  have hR : parseInternal tbl n c =
      (stepAttach iso3166 (stepRus iso3166.Alpha3 (stepLeadZeros iso3166.Alpha3
        (stepTrunkZero iso3166.CountryCode n))), iso3166) := by
    rw [parseInternal_eq, stripSpaces_of_digits _ hn, hiso,
      not_startsWith_plus_of_digits _ hn, Bool.false_and, if_neg (by simp),
      digitsOnly_of_digits _ hn]
  have hsl : ∀ x, stepLeadZeros iso3166.Alpha3 x = stripLeadingZeros x := by
    intro x
    unfold stepLeadZeros
    rw [if_pos hexc]
  have hcore : stepLeadZeros iso3166.Alpha3
      (stepTrunkZero iso3166.CountryCode ("0" ++ n)) =
      stepLeadZeros iso3166.Alpha3 (stepTrunkZero iso3166.CountryCode n) := by
    rw [hsl, hsl]
    exact stripLead_stepTrunk_zero iso3166.CountryCode n hsafe
  have hpair : parseInternal tbl ("0" ++ n) c = parseInternal tbl n c := by
    rw [hL, hR, hcore]
  refine ⟨?_, by rw [hpair]⟩
  show (if validateMobileISO3166 (parseInternal tbl ("0" ++ n) c).1
        (parseInternal tbl ("0" ++ n) c).2 = true
      then (parseInternal tbl ("0" ++ n) c).1 else "") =
    (if validateMobileISO3166 (parseInternal tbl n c).1 (parseInternal tbl n c).2 = true
      then (parseInternal tbl n c).1 else "")
  rw [hpair]

/-- C8 (witness): the amended trunk-zero invariant at a concrete
France-like record: `parse("0712345678", "FR") = parse("712345678", "FR")`. -/
theorem parse_trunk_zero_amended_witness :
    (getISO3166ByCountry [ISO3166.mk "FR" "FRA" "France" ["6", "7"] [9] "33"]
        (stripSpaces "FR") = ISO3166.mk "FR" "FRA" "France" ["6", "7"] [9] "33" ∧
      isDigitStr "712345678" = true ∧
      indexOfString (ISO3166.mk "FR" "FRA" "France" ["6", "7"] [9] "33").Alpha3
        ["GAB", "CIV", "COG"] = -1 ∧
      indexOfInt (strLen "712345678")
        (ISO3166.mk "FR" "FRA" "France" ["6", "7"] [9] "33").PhoneNumberLengths ≠ -1 ∧
      ((ISO3166.mk "FR" "FRA" "France" ["6", "7"] [9] "33").CountryCode = "" ∨
        (strStartsWith (ISO3166.mk "FR" "FRA" "France" ["6", "7"] [9] "33").CountryCode "0"
            = false ∧
          (strStartsWith "712345678"
              (ISO3166.mk "FR" "FRA" "France" ["6", "7"] [9] "33").CountryCode = true →
            strStartsWith (strDrop "712345678"
              (strLen (ISO3166.mk "FR" "FRA" "France" ["6", "7"] [9] "33").CountryCode)) "0"
                = false)))) ∧
    (Parse [ISO3166.mk "FR" "FRA" "France" ["6", "7"] [9] "33"] ("0" ++ "712345678") "FR" =
        Parse [ISO3166.mk "FR" "FRA" "France" ["6", "7"] [9] "33"] "712345678" "FR" ∧
      (parseInternal [ISO3166.mk "FR" "FRA" "France" ["6", "7"] [9] "33"]
          ("0" ++ "712345678") "FR").1 =
        (parseInternal [ISO3166.mk "FR" "FRA" "France" ["6", "7"] [9] "33"]
          "712345678" "FR").1) :=
  ⟨⟨by decide, by decide, by decide, by decide, by decide⟩,
    parse_trunk_zero_amended [ISO3166.mk "FR" "FRA" "France" ["6", "7"] [9] "33"]
      "FR" "712345678" (ISO3166.mk "FR" "FRA" "France" ["6", "7"] [9] "33")
      (by decide) (by decide) (by decide) (by decide) (by decide)⟩
